import Mathlib

/-!
Verification of the grid-scan benchmarking tool
(`src/tools/ImageQueryTime/main.cpp` of SdfLib).

The development is a shallow embedding of the tool's core computations over
exact rationals: `glm::vec3` becomes a record of three rationals, the float
arithmetic of the scan loop becomes exact `ℚ` arithmetic, and the fallible
float-to-`uint32_t` conversion (undefined behaviour outside `[0, 2^32)`)
becomes an `Option`-valued cast.  External collaborators (the two distance
engines, the wall clock) enter as oracle functions in a `ScanCtx`.
-/

namespace ImageQueryTime

/-- A 3D vector with exact rational components, embedding `glm::vec3`. -/
structure Vec3 where
  x : ℚ
  y : ℚ
  z : ℚ
deriving DecidableEq

/-- The `interpolate` lambda of `main.cpp` (line 145):
`(1.0f - t) * a + t * b`, componentwise. -/
def interpolate (a b : Vec3) (t : ℚ) : Vec3 :=
  ⟨(1 - t) * a.x + t * b.x, (1 - t) * a.y + t * b.y, (1 - t) * a.z + t * b.z⟩

/-- Normalized pixel-center coordinate (lines 143 and 174-175):
`invWidth * (0.5f + i)` with `invWidth = 1 / imageWidth`.  Used for both
`tx` (with the column index) and `ty` (with the row index). -/
def sampleT (w k : ℕ) : ℚ :=
  (1 / (w : ℚ)) * (1 / 2 + (k : ℚ))

/-- The bilinear position mapping of lines 178-179:
interpolate the `q0 → q1` edge and the `q2 → q3` edge along X by `tx`,
then interpolate the two results along Y by `ty`. -/
def bilinearPos (q0 q1 q2 q3 : Vec3) (tx ty : ℚ) : Vec3 :=
  interpolate (interpolate q0 q1 tx) (interpolate q2 q3 tx) ty

/-- `glm::round` (`std::round` on floats): round to nearest, halves away
from zero. -/
def roundAway (q : ℚ) : ℤ :=
  if 0 ≤ q then ⌊q + 1 / 2⌋ else -⌊-q + 1 / 2⌋

/-- `static_cast<uint32_t>` applied to a float holding the integer value
`z`: the conversion is well defined only for `0 ≤ z < 2^32`; outside that
range the C++ behaviour is undefined, modelled as `none`. -/
def uint32Cast (z : ℤ) : Option ℕ :=
  if 0 ≤ z ∧ z < 4294967296 then some z.toNat else none

/-- The histogram bucket computation of line 193:
`glm::min(static_cast<uint32_t>(glm::round((dist1 * invDiag + 1.0f) * 20.0f)), 39u)`.
`none` marks the undefined float→unsigned conversion. -/
def bucketIdx (dist1 invDiag : ℚ) : Option ℕ :=
  (uint32Cast (roundAway ((dist1 * invDiag + 1) * 20))).map fun n => min n 39

/-- The bucket formula as the specification words it:
`clamp(round((dist1 * invDiag + 1) * 20), 0, 39)`, with a genuine lower
clamp at 0.  Kept separate from `bucketIdx` (the code's computation) so the
two can be compared. -/
def bucketSpecC1 (dist1 invDiag : ℚ) : ℤ :=
  min (max (roundAway ((dist1 * invDiag + 1) * 20)) 0) 39

/-- The divergence tolerance of line 217 (`1e-5`). -/
def tol : ℚ := 1 / 100000

/-- The scan's environment: image width, the four sampling-quad corners
(`samplesQuad`, lines 129-134), `invDiag` (line 166), the two external
distance engines (`exactSdf->getDistance`, `cgalTree.getDistance`) as
functions of the queried position, and the two per-pixel wall-clock
timings (values of `timer.getElapsedMicroseconds() / samples`) as oracles
indexed by the pixel `(i, j)`. -/
structure ScanCtx where
  w : ℕ
  q0 : Vec3
  q1 : Vec3
  q2 : Vec3
  q3 : Vec3
  invDiag : ℚ
  d1 : Vec3 → ℚ
  d2 : Vec3 → ℚ
  t1 : ℕ → ℕ → ℚ
  t2 : ℕ → ℕ → ℚ

/-- World position sampled for pixel `(i, j)` (lines 174-179). -/
def posAt (c : ScanCtx) (i j : ℕ) : Vec3 :=
  bilinearPos c.q0 c.q1 c.q2 c.q3 (sampleT c.w i) (sampleT c.w j)

/-- The mutable state of the scan loop (lines 140-168): the two per-pixel
timing buffers (zero-initialized `std::vector<float>`), the two 40-bucket
histograms (accumulated time and sample count), the running timing
intervals (`minImage` starts at `INFINITY`, modelled as `none`), and the
running `maxError`. -/
structure ScanState where
  outImage1 : ℕ → ℚ
  outImage2 : ℕ → ℚ
  histAccTime1 : ℕ → ℚ
  histAccTime2 : ℕ → ℚ
  histCount1 : ℕ → ℕ
  histCount2 : ℕ → ℕ
  minImage1 : Option ℚ
  minImage2 : Option ℚ
  maxImage1 : ℚ
  maxImage2 : ℚ
  maxError : ℚ

/-- Pointwise update of a buffer. -/
def updQ (f : ℕ → ℚ) (k : ℕ) (v : ℚ) : ℕ → ℚ :=
  fun n => if n = k then v else f n

/-- `glm::min(minImage, v)` with `minImage` initialized to `INFINITY`. -/
def optMin (m : Option ℚ) (v : ℚ) : Option ℚ :=
  some (match m with
        | none => v
        | some a => min a v)

/-- The state after lines 140-164 of `main`. -/
def initState : ScanState where
  outImage1 := fun _ => 0
  outImage2 := fun _ => 0
  histAccTime1 := fun _ => 0
  histAccTime2 := fun _ => 0
  histCount1 := fun _ => 0
  histCount2 := fun _ => 0
  minImage1 := none
  minImage2 := none
  maxImage1 := 0
  maxImage2 := 0
  maxError := 0

/-- All state updates of one iteration of the inner loop (lines 174-214),
given the already-computed bucket index `idx`: write both timing buffers at
`j * imageWidth + i`, accumulate both histograms at `idx`, update the
timing intervals, and update `maxError` with `|dist1 - dist2|`. -/
def pixelWrite (c : ScanCtx) (st : ScanState) (i j idx : ℕ) : ScanState :=
  { st with
    outImage1 := updQ st.outImage1 (j * c.w + i) (c.t1 i j)
    outImage2 := updQ st.outImage2 (j * c.w + i) (c.t2 i j)
    histAccTime1 := updQ st.histAccTime1 idx (st.histAccTime1 idx + c.t1 i j)
    histAccTime2 := updQ st.histAccTime2 idx (st.histAccTime2 idx + c.t2 i j)
    histCount1 := fun b => if b = idx then st.histCount1 b + 1 else st.histCount1 b
    histCount2 := fun b => if b = idx then st.histCount2 b + 1 else st.histCount2 b
    minImage1 := optMin st.minImage1 (c.t1 i j)
    minImage2 := optMin st.minImage2 (c.t2 i j)
    maxImage1 := max st.maxImage1 (c.t1 i j)
    maxImage2 := max st.maxImage2 (c.t2 i j)
    maxError := max st.maxError |c.d1 (posAt c i j) - c.d2 (posAt c i j)| }

/-- One iteration of the inner loop: `none` when the bucket computation of
line 193 hits the undefined float→unsigned conversion. -/
def pixelStep (c : ScanCtx) (st : ScanState) (i j : ℕ) : Option ScanState :=
  (bucketIdx (c.d1 (posAt c i j)) c.invDiag).map (pixelWrite c st i j)

/-- The inner column loop of row `j` (line 172), over an explicit list of
column indices. -/
def runRow (c : ScanCtx) (j : ℕ) : List ℕ → ScanState → Option ScanState
  | [], st => some st
  | i :: rest, st =>
    match pixelStep c st i j with
    | none => none
    | some st2 => runRow c j rest st2

/-- The outer row loop (lines 170-221): after each completed row, break
out of the loop when `maxError > 1e-5` (lines 217-220). -/
def scanRows (c : ScanCtx) : List ℕ → ScanState → Option ScanState
  | [], st => some st
  | j :: rest, st =>
    match runRow c j (List.range c.w) st with
    | none => none
    | some st2 => if tol < st2.maxError then some st2 else scanRows c rest st2

/-- The whole scan of `main`. -/
def scan (c : ScanCtx) : Option ScanState :=
  scanRows c (List.range c.w) initState

/-- Row processing without the early-abort check; used to phrase
hypotheses about the states reached after a prefix of the rows. -/
def rowsNoAbort (c : ScanCtx) : List ℕ → ScanState → Option ScanState
  | [], st => some st
  | j :: rest, st =>
    match runRow c j (List.range c.w) st with
    | none => none
    | some st2 => rowsNoAbort c rest st2

/-- State after unconditionally processing rows `0, …, n-1` from the
initial state. -/
def rowsTo (c : ScanCtx) (n : ℕ) : Option ScanState :=
  rowsNoAbort c (List.range n) initState

/-- Total sample count of method A's histogram (buckets 0-39). -/
def countSum1 (st : ScanState) : ℕ :=
  ∑ b ∈ Finset.range 40, st.histCount1 b

/-- Total sample count of method B's histogram (buckets 0-39). -/
def countSum2 (st : ScanState) : ℕ :=
  ∑ b ∈ Finset.range 40, st.histCount2 b

/-! ### Visualization encoder (`printImage`, lines 232-274) -/

/-- The fixed 5-stop palette `colorsPalette` (lines 232-239); indices past
the end never arise because the scaled index is clamped below 4. -/
def colorsPalette : ℕ → Vec3
  | 0 => ⟨1, 0, 1⟩
  | 1 => ⟨0, 0, 1⟩
  | 2 => ⟨0, 1, 0⟩
  | 3 => ⟨1, 1, 0⟩
  | _ => ⟨1, 0, 0⟩

/-- `glm::clamp`. -/
def clampQ (v lo hi : ℚ) : ℚ := min (max v lo) hi

/-- `glm::fract`: `x - floor(x)`. -/
def fractQ (q : ℚ) : ℚ := q - ⌊q⌋

/-- `static_cast<uint32_t>` of a nonnegative float value: truncation
toward zero, which for the nonnegative arguments arising here is the
floor. -/
def truncNat (q : ℚ) : ℕ := (⌊q⌋).toNat

/-- Lines 246-247 / 259-260: normalize the value against the color
interval, scale by `colorsPalette.size() - 1 = 4`, and clamp into
`[0, 4 - 0.01]`. -/
def scaledIndex (v minC maxC : ℚ) : ℚ :=
  clampQ ((v - minC) / (maxC - minC) * 4) 0 (4 - 1 / 100)

/-- Lines 248-250 / 261-263: interpolate between the two bracketing
palette colors by the fractional part of the scaled index. -/
def encodeColor (v minC maxC : ℚ) : Vec3 :=
  interpolate (colorsPalette (truncNat (scaledIndex v minC maxC)))
              (colorsPalette (truncNat (scaledIndex v minC maxC) + 1))
              (fractQ (scaledIndex v minC maxC))

/-- Lines 252-255 / 265-268: pack the color as
`(255 << 24) | (B << 16) | (G << 8) | R` with 8-bit channels obtained by
`static_cast<uint32_t>(255.0f * channel)`. -/
def packColor (col : Vec3) : ℕ :=
  (255 <<< 24) ||| (truncNat (255 * col.z) <<< 16) |||
    (truncNat (255 * col.y) <<< 8) ||| truncNat (255 * col.x)

/-- The full per-value pixel encoding of `printImage`. -/
def encodePixel (v minC maxC : ℚ) : ℕ :=
  packColor (encodeColor v minC maxC)

/-- Extract the 8-bit channel starting at bit `k` of a packed pixel. -/
def byteAt (p k : ℕ) : ℕ := (p >>> k) % 256

/-- The pair of files one `printImage(name, …)` call writes
(lines 272-273): `name + "1.png"` and `name + "2.png"`. -/
def printImageFiles (name : String) : List String :=
  [name ++ "1.png", name ++ "2.png"]

/-- The `printImage` call sites that actually execute in `main`: every one
of them (lines 276-282) is commented out, so the list is empty. -/
def mainPrintImageCalls : List String := []

/-- All raster files `main` emits. -/
def mainEmittedFiles : List String :=
  mainPrintImageCalls.flatMap printImageFiles

/-! ### Histogram-average reporting (lines 284-294, disabled) -/

/-- Float division producing a finite value: `none` models the non-finite
result of dividing by zero. -/
def floatDivQ (a b : ℚ) : Option ℚ :=
  if b = 0 then none else some (a / b)

/-- The bucket-averaging loop of lines 284-294 (commented out in the
shipped code): for every `i` in `0..39` it computes
`histAccTime[i] / histCount[i]` unconditionally, with no zero-count
check. -/
def histAverages (acc : ℕ → ℚ) (count : ℕ → ℕ) : List (Option ℚ) :=
  (List.range 40).map fun i => floatDivQ (acc i) (count i)

/-! ### CLI handling (lines 96-110)

`args::ArgumentParser::ParseCLI` signals through exceptions: it throws
`args::Help` when the `--help`/`-h` flag is matched and `args::ParseError`
(a sibling of `args::Help`, both derived from `args::Error`) when the
arguments fail to parse.  `main` wraps the call in a `try` block whose only
handler is `catch(args::Help)` (lines 106-110), which prints the usage text
to `stderr` and returns 0. -/

/-- Outcome of `parser.ParseCLI(argc, argv)` at line 104. -/
inductive ParseOutcome where
  | success
  | helpRequested
  | parseFailure
deriving DecidableEq

/-- How `main` proceeds after the `try`/`catch` of lines 102-110.
`exitWith code printedUsage` is a normal return; `uncaughtException` is an
exception escaping `main` (process aborts with a failure status). -/
inductive CliResult where
  | continueRun
  | exitWith (code : ℕ) (printedUsage : Bool)
  | uncaughtException
deriving DecidableEq

/-- The observable control flow of lines 102-110: only `args::Help` is
caught; a parse failure propagates out of `main`. -/
def handleParseCLI : ParseOutcome → CliResult
  | .success => .continueRun
  | .helpRequested => .exitWith 0 true
  | .parseFailure => .uncaughtException

/-! ### A concrete scan context used by witnesses and counterexamples -/

/-- A concrete 1×1 scan: the two engines disagree by exactly 1 at every
point, so the scan aborts after its single row. -/
def cEx : ScanCtx where
  w := 1
  q0 := ⟨0, 1, 163 / 1000⟩
  q1 := ⟨1, 1, 163 / 1000⟩
  q2 := ⟨0, 0, 163 / 1000⟩
  q3 := ⟨1, 0, 163 / 1000⟩
  invDiag := 1
  d1 := fun _ => 0
  d2 := fun _ => 1
  t1 := fun _ _ => 7
  t2 := fun _ _ => 9

/-- The state the concrete scan ends in. -/
def exFinal : ScanState := (scan cEx).getD initState

/-- The state after row 0 of the concrete scan. -/
def c2state : ScanState := (rowsTo cEx 1).getD initState

/-- The state after the first pixel of the concrete scan. -/
def c3state : ScanState := (pixelStep cEx initState 0 0).getD initState

/-! ## Helper lemmas -/

theorem sampleT_eq (w k : ℕ) : sampleT w k = ((k : ℚ) + 1 / 2) / (w : ℚ) := by
  unfold sampleT; ring

theorem sampleT_pos (w k : ℕ) (hw : 1 ≤ w) : 0 < sampleT w k := by
  rw [sampleT_eq]
  apply div_pos
  · positivity
  · exact_mod_cast Nat.lt_of_lt_of_le Nat.zero_lt_one hw

theorem sampleT_lt_one (w k : ℕ) (hk : k < w) : sampleT w k < 1 := by
  rw [sampleT_eq]
  have hw0 : (0 : ℚ) < w := by exact_mod_cast Nat.pos_of_ne_zero (by omega)
  rw [div_lt_one hw0]
  have h1 : (k : ℚ) + 1 ≤ w := by exact_mod_cast hk
  linarith

theorem bucketIdx_le_39 {d invD : ℚ} {n : ℕ} (h : bucketIdx d invD = some n) :
    n ≤ 39 := by
  unfold bucketIdx at h
  cases hc : uint32Cast (roundAway ((d * invD + 1) * 20)) with
  | none => rw [hc] at h; simp at h
  | some m =>
    rw [hc] at h
    simp only [Option.map_some', Option.some.injEq] at h
    omega

theorem pixelStep_eq_some {c : ScanCtx} {st : ScanState} {i j : ℕ} {st2 : ScanState}
    (h : pixelStep c st i j = some st2) :
    ∃ idx, bucketIdx (c.d1 (posAt c i j)) c.invDiag = some idx ∧ idx ≤ 39 ∧
      st2 = pixelWrite c st i j idx := by
  unfold pixelStep at h
  cases hb : bucketIdx (c.d1 (posAt c i j)) c.invDiag with
  | none => rw [hb] at h; simp at h
  | some idx =>
    rw [hb] at h
    simp only [Option.map_some', Option.some.injEq] at h
    exact ⟨idx, rfl, bucketIdx_le_39 hb, h.symm⟩

theorem le_foldl_max (f : ℕ → ℚ) :
    ∀ (l : List ℕ) (m : ℚ), m ≤ l.foldl (fun a i => max a (f i)) m := by
  intro l
  induction l with
  | nil => intro m; simp
  | cons i rest ih =>
    intro m
    simpa using le_trans (le_max_left m (f i)) (ih (max m (f i)))

theorem runRow_maxError (c : ScanCtx) (j : ℕ) :
    ∀ (cols : List ℕ) (st st2 : ScanState), runRow c j cols st = some st2 →
      st2.maxError =
        cols.foldl (fun m i => max m |c.d1 (posAt c i j) - c.d2 (posAt c i j)|) st.maxError := by
  intro cols
  induction cols with
  | nil =>
    intro st st2 h
    simp only [runRow, Option.some.injEq] at h
    subst h; simp
  | cons i rest ih =>
    intro st st2 h
    cases hp : pixelStep c st i j with
    | none => simp only [runRow, hp] at h; exact Option.noConfusion h
    | some st1 =>
      simp only [runRow, hp] at h
      obtain ⟨idx, _, _, rfl⟩ := pixelStep_eq_some hp
      rw [ih _ _ h]
      simp [pixelWrite]

theorem runRow_maxError_mono (c : ScanCtx) (j : ℕ) (cols : List ℕ) (st st2 : ScanState)
    (h : runRow c j cols st = some st2) : st.maxError ≤ st2.maxError := by
  rw [runRow_maxError c j cols st st2 h]
  exact le_foldl_max _ cols st.maxError

theorem scanRows_maxError_mono (c : ScanCtx) :
    ∀ (rows : List ℕ) (st st2 : ScanState), scanRows c rows st = some st2 →
      st.maxError ≤ st2.maxError := by
  intro rows
  induction rows with
  | nil =>
    intro st st2 h
    simp only [scanRows, Option.some.injEq] at h
    subst h; exact le_refl _
  | cons j rest ih =>
    intro st st2 h
    cases hr : runRow c j (List.range c.w) st with
    | none => simp only [scanRows, hr] at h; exact Option.noConfusion h
    | some st1 =>
      simp only [scanRows, hr] at h
      by_cases habort : tol < st1.maxError
      · rw [if_pos habort] at h
        cases h
        exact runRow_maxError_mono c j _ st st2 hr
      · rw [if_neg habort] at h
        exact le_trans (runRow_maxError_mono c j _ st st1 hr) (ih st1 st2 h)

theorem runRow_out_ne (c : ScanCtx) (j : ℕ) :
    ∀ (cols : List ℕ) (st st2 : ScanState), runRow c j cols st = some st2 →
      ∀ k, (∀ i ∈ cols, k ≠ j * c.w + i) →
        st2.outImage1 k = st.outImage1 k ∧ st2.outImage2 k = st.outImage2 k := by
  intro cols
  induction cols with
  | nil =>
    intro st st2 h k _
    simp only [runRow, Option.some.injEq] at h
    subst h; exact ⟨rfl, rfl⟩
  | cons i rest ih =>
    intro st st2 h k hk
    cases hp : pixelStep c st i j with
    | none => simp only [runRow, hp] at h; exact Option.noConfusion h
    | some st1 =>
      simp only [runRow, hp] at h
      obtain ⟨idx, _, _, rfl⟩ := pixelStep_eq_some hp
      have hrest := ih _ _ h k (fun i2 hi2 => hk i2 (List.mem_cons_of_mem i hi2))
      have hhead : k ≠ j * c.w + i := hk i (List.mem_cons_self i rest)
      constructor
      · rw [hrest.1]; simp [pixelWrite, updQ, hhead]
      · rw [hrest.2]; simp [pixelWrite, updQ, hhead]

theorem runRow_writes (c : ScanCtx) (j : ℕ) :
    ∀ (cols : List ℕ), cols.Nodup → ∀ (st st2 : ScanState), runRow c j cols st = some st2 →
      ∀ i ∈ cols,
        st2.outImage1 (j * c.w + i) = c.t1 i j ∧ st2.outImage2 (j * c.w + i) = c.t2 i j := by
  intro cols
  induction cols with
  | nil => intro _ st st2 _ i hi; exact absurd hi (List.not_mem_nil i)
  | cons i0 rest ih =>
    intro hnd st st2 h i hi
    cases hp : pixelStep c st i0 j with
    | none => simp only [runRow, hp] at h; exact Option.noConfusion h
    | some st1 =>
      simp only [runRow, hp] at h
      obtain ⟨idx, _, _, hw⟩ := pixelStep_eq_some hp
      rcases List.mem_cons.mp hi with rfl | hmem
      · have hni : ∀ i2 ∈ rest, j * c.w + i ≠ j * c.w + i2 := by
          intro i2 hi2 heq
          have hii : i = i2 := by omega
          exact (List.nodup_cons.mp hnd).1 (hii ▸ hi2)
        have hpres := runRow_out_ne c j rest st1 st2 h (j * c.w + i) hni
        subst hw
        constructor
        · rw [hpres.1]; simp [pixelWrite, updQ]
        · rw [hpres.2]; simp [pixelWrite, updQ]
      · exact ih (List.nodup_cons.mp hnd).2 st1 st2 h i hmem

theorem rowsNoAbort_append (c : ScanCtx) :
    ∀ (l1 l2 : List ℕ) (st : ScanState),
      rowsNoAbort c (l1 ++ l2) st = (rowsNoAbort c l1 st).bind fun s => rowsNoAbort c l2 s := by
  intro l1
  induction l1 with
  | nil => intro l2 st; simp [rowsNoAbort]
  | cons j rest ih =>
    intro l2 st
    simp only [List.cons_append, rowsNoAbort]
    cases hr : runRow c j (List.range c.w) st with
    | none => simp
    | some st1 => simp [ih]

theorem rowsNoAbort_single (c : ScanCtx) (j : ℕ) (st : ScanState) :
    rowsNoAbort c [j] st = runRow c j (List.range c.w) st := by
  cases hr : runRow c j (List.range c.w) st <;> simp [rowsNoAbort, hr]

theorem rowsTo_succ (c : ScanCtx) (n : ℕ) :
    rowsTo c (n + 1) = (rowsTo c n).bind fun s => runRow c n (List.range c.w) s := by
  unfold rowsTo
  rw [List.range_succ, rowsNoAbort_append]
  simp [rowsNoAbort_single]

theorem rowsNoAbort_out_ne (c : ScanCtx) :
    ∀ (rows : List ℕ) (st st2 : ScanState), rowsNoAbort c rows st = some st2 →
      ∀ k, (∀ j ∈ rows, ∀ i ∈ List.range c.w, k ≠ j * c.w + i) →
        st2.outImage1 k = st.outImage1 k ∧ st2.outImage2 k = st.outImage2 k := by
  intro rows
  induction rows with
  | nil =>
    intro st st2 h k _
    simp only [rowsNoAbort, Option.some.injEq] at h
    subst h; exact ⟨rfl, rfl⟩
  | cons j rest ih =>
    intro st st2 h k hk
    cases hr : runRow c j (List.range c.w) st with
    | none => simp only [rowsNoAbort, hr] at h; exact Option.noConfusion h
    | some st1 =>
      simp only [rowsNoAbort, hr] at h
      have hrest := ih st1 st2 h k (fun j2 hj2 => hk j2 (List.mem_cons_of_mem j hj2))
      have hrow := runRow_out_ne c j (List.range c.w) st st1 hr k
        (fun i hi => hk j (List.mem_cons_self j rest) i hi)
      exact ⟨hrest.1.trans hrow.1, hrest.2.trans hrow.2⟩

theorem scanRows_bridge (c : ScanCtx) :
    ∀ (n : ℕ) (rest : List ℕ) (stn : ScanState),
      (∀ r2 s, r2 < n → rowsTo c (r2 + 1) = some s → s.maxError ≤ tol) →
      rowsTo c n = some stn →
      scanRows c (List.range n ++ rest) initState = scanRows c rest stn := by
  intro n
  induction n with
  | zero =>
    intro rest stn _ h0
    simp only [rowsTo, List.range_zero, rowsNoAbort, Option.some.injEq] at h0
    subst h0
    simp
  | succ n ih =>
    intro rest stn1 h hsucc
    rw [rowsTo_succ] at hsucc
    obtain ⟨stn, hn, hrow⟩ := Option.bind_eq_some.mp hsucc
    have hmid := ih (n :: rest) stn (fun r2 s h2 => h r2 s (Nat.lt_succ_of_lt h2)) hn
    have hrange : List.range (n + 1) ++ rest = List.range n ++ (n :: rest) := by
      rw [List.range_succ, List.append_assoc]; rfl
    rw [hrange, hmid]
    simp only [scanRows, hrow]
    have hle : stn1.maxError ≤ tol :=
      h n stn1 (Nat.lt_succ_self n) (by rw [rowsTo_succ, hn]; simpa using hrow)
    rw [if_neg (not_lt.mpr hle)]

theorem countSum1_pixelWrite (c : ScanCtx) (st : ScanState) (i j idx : ℕ) (hle : idx ≤ 39) :
    countSum1 (pixelWrite c st i j idx) = countSum1 st + 1 := by
  unfold countSum1
  simp only [pixelWrite]
  have hsplit : ∀ b : ℕ,
      (if b = idx then st.histCount1 b + 1 else st.histCount1 b) =
        st.histCount1 b + (if b = idx then 1 else 0) := by
    intro b; split <;> simp
  simp only [hsplit, Finset.sum_add_distrib]
  rw [Finset.sum_ite_eq' (Finset.range 40) idx (fun _ => 1)]
  rw [if_pos (Finset.mem_range.mpr (by omega))]

theorem countSum2_pixelWrite (c : ScanCtx) (st : ScanState) (i j idx : ℕ) (hle : idx ≤ 39) :
    countSum2 (pixelWrite c st i j idx) = countSum2 st + 1 := by
  unfold countSum2
  simp only [pixelWrite]
  have hsplit : ∀ b : ℕ,
      (if b = idx then st.histCount2 b + 1 else st.histCount2 b) =
        st.histCount2 b + (if b = idx then 1 else 0) := by
    intro b; split <;> simp
  simp only [hsplit, Finset.sum_add_distrib]
  rw [Finset.sum_ite_eq' (Finset.range 40) idx (fun _ => 1)]
  rw [if_pos (Finset.mem_range.mpr (by omega))]

theorem runRow_counts (c : ScanCtx) (j : ℕ) :
    ∀ (cols : List ℕ) (st st2 : ScanState), runRow c j cols st = some st2 →
      countSum1 st2 = countSum1 st + cols.length ∧
      countSum2 st2 = countSum2 st + cols.length ∧
      ∀ b, st.histCount1 b = st.histCount2 b → st2.histCount1 b = st2.histCount2 b := by
  intro cols
  induction cols with
  | nil =>
    intro st st2 h
    simp only [runRow, Option.some.injEq] at h
    subst h
    exact ⟨by simp, by simp, fun b hb => hb⟩
  | cons i rest ih =>
    intro st st2 h
    cases hp : pixelStep c st i j with
    | none => simp only [runRow, hp] at h; exact Option.noConfusion h
    | some st1 =>
      simp only [runRow, hp] at h
      obtain ⟨idx, _, hle, rfl⟩ := pixelStep_eq_some hp
      obtain ⟨ha, hb, hc⟩ := ih _ _ h
      refine ⟨?_, ?_, ?_⟩
      · rw [ha, countSum1_pixelWrite c st i j idx hle]
        simp [List.length_cons]; omega
      · rw [hb, countSum2_pixelWrite c st i j idx hle]
        simp [List.length_cons]; omega
      · intro b heq
        apply hc
        simp only [pixelWrite]
        split <;> simp [heq]

theorem scanRows_counts (c : ScanCtx) :
    ∀ (rows : List ℕ) (st st2 : ScanState), scanRows c rows st = some st2 →
      (∃ k, k ≤ rows.length ∧
        countSum1 st2 = countSum1 st + k * c.w ∧ countSum2 st2 = countSum2 st + k * c.w) ∧
      ∀ b, st.histCount1 b = st.histCount2 b → st2.histCount1 b = st2.histCount2 b := by
  intro rows
  induction rows with
  | nil =>
    intro st st2 h
    simp only [scanRows, Option.some.injEq] at h
    subst h
    exact ⟨⟨0, by simp⟩, fun b hb => hb⟩
  | cons j rest ih =>
    intro st st2 h
    cases hr : runRow c j (List.range c.w) st with
    | none => simp only [scanRows, hr] at h; exact Option.noConfusion h
    | some st1 =>
      simp only [scanRows, hr] at h
      obtain ⟨h1, h2, h3⟩ := runRow_counts c j (List.range c.w) st st1 hr
      rw [List.length_range] at h1 h2
      by_cases habort : tol < st1.maxError
      · rw [if_pos habort] at h
        cases h
        refine ⟨⟨1, by simp, by simpa using h1, by simpa using h2⟩, h3⟩
      · rw [if_neg habort] at h
        obtain ⟨⟨k, hk, hk1, hk2⟩, hpres⟩ := ih st1 st2 h
        refine ⟨⟨k + 1, by simpa using Nat.succ_le_succ hk, ?_, ?_⟩, fun b hb => hpres b (h3 b hb)⟩
        · rw [hk1, h1]; ring
        · rw [hk2, h2]; ring

theorem scaledIndex_min (minC maxC : ℚ) : scaledIndex minC minC maxC = 0 := by
  unfold scaledIndex clampQ
  norm_num

theorem scaledIndex_max (minC maxC : ℚ) (h : minC < maxC) :
    scaledIndex maxC minC maxC = 399 / 100 := by
  unfold scaledIndex clampQ
  rw [div_self (sub_ne_zero.mpr (ne_of_gt h))]
  norm_num

theorem encodeColor_min (minC maxC : ℚ) : encodeColor minC minC maxC = colorsPalette 0 := by
  unfold encodeColor
  rw [scaledIndex_min]
  with_unfolding_all decide

theorem encodeColor_max (minC maxC : ℚ) (h : minC < maxC) :
    encodeColor maxC minC maxC = ⟨1, 1 / 100, 0⟩ := by
  unfold encodeColor
  rw [scaledIndex_max minC maxC h]
  with_unfolding_all decide

/-! ## Claim theorems -/

/-- C1 (counterexample): at `dist1 = -2` with `invDiag = 1` (so the
diagonal length is 1 and `dist1 < -diagonal`), the spec formula
`clamp(round((dist1 * invDiag + 1) * 20), 0, 39)` gives bucket 0, but the
code's line-193 computation does not collapse the value into bucket 0: the
rounded value `-20` is negative, so the float→`uint32_t` conversion is
undefined behaviour rather than a lower clamp. -/
theorem bucket_negative_distance_cex :
    bucketIdx (-2) 1 = none ∧ bucketSpecC1 (-2) 1 = 0 ∧
      bucketIdx (-2) 1 ≠ some (bucketSpecC1 (-2) 1).toNat := by
  with_unfolding_all decide

/-- C1 (amended): whenever the rounded normalized value
`r = round((dist1 * invDiag + 1) * 20)` satisfies `0 ≤ r < 2^32` (in
particular for every `dist1` between roughly `-diagonal` and the huge
positive range bound), the computed index equals `min(r, 39)`, which
coincides with the spec's `clamp(r, 0, 39)` and lies in `[0, 39]`;
below that range the unsigned conversion is undefined instead of
clamping to bucket 0. -/
theorem bucket_clamp_in_range (d invD : ℚ)
    (h0 : 0 ≤ roundAway ((d * invD + 1) * 20))
    (h1 : roundAway ((d * invD + 1) * 20) < 4294967296) :
    bucketIdx d invD = some (min (roundAway ((d * invD + 1) * 20)).toNat 39) ∧
    ((min (roundAway ((d * invD + 1) * 20)).toNat 39 : ℕ) : ℤ) = bucketSpecC1 d invD ∧
    min (roundAway ((d * invD + 1) * 20)).toNat 39 ≤ 39 := by
  refine ⟨?_, ?_, min_le_right _ _⟩
  · unfold bucketIdx uint32Cast
    rw [if_pos ⟨h0, h1⟩]
    rfl
  · unfold bucketSpecC1
    rw [max_eq_left h0]
    push_cast
    rw [Int.toNat_of_nonneg h0]

/-- Witness for `bucket_clamp_in_range` at `dist1 = 0`, `invDiag = 1`
(the on-surface sample, bucket 20). -/
theorem bucket_clamp_in_range_witness :
    0 ≤ roundAway ((0 * 1 + 1) * 20) ∧ roundAway ((0 * 1 + 1) * 20) < 4294967296 ∧
    bucketIdx 0 1 = some (min (roundAway ((0 * 1 + 1) * 20)).toNat 39) :=
  ⟨by with_unfolding_all decide, by with_unfolding_all decide,
    (bucket_clamp_in_range 0 1 (by with_unfolding_all decide)
      (by with_unfolding_all decide)).1⟩

/-- C4 (counterexample): a parse failure (any malformed command line
other than `--help`/`-h`, e.g. a non-numeric `image_width`) is not caught
by the `catch(args::Help)` handler of lines 106-110: it escapes `main` as
an uncaught exception, so the program neither prints usage nor exits
with status 0. -/
theorem cli_parse_failure_cex :
    handleParseCLI ParseOutcome.parseFailure = CliResult.uncaughtException ∧
    handleParseCLI ParseOutcome.parseFailure ≠ CliResult.exitWith 0 true := by
  decide

/-- C4 (amended): only the `--help`/`-h` request (the `args::Help`
exception) prints the usage text and exits with status 0; every other
parse failure propagates out of `main` uncaught, aborting the process
with a failure status. -/
theorem cli_exit_zero_only_for_help :
    (∀ o : ParseOutcome,
        handleParseCLI o = CliResult.exitWith 0 true ↔ o = ParseOutcome.helpRequested) ∧
    handleParseCLI ParseOutcome.parseFailure = CliResult.uncaughtException := by
  constructor
  · intro o
    cases o <;> simp [handleParseCLI]
  · rfl

/-- C5 (counterexample): `main` emits no raster image files at all — every
`printImage` call site (lines 276-282) is commented out — so no run emits
the two files the claim asserts. -/
theorem print_image_not_called_cex :
    mainEmittedFiles = [] ∧ mainEmittedFiles.length ≠ 2 ∧ mainPrintImageCalls.length = 0 := by
  refine ⟨rfl, ?_, rfl⟩
  simp [mainEmittedFiles, mainPrintImageCalls]

/-- C5 (amended): the Visualization Encoder is defined but never invoked:
`main` makes no `printImage` call and emits no raster files on any run; a
single invocation of `printImage` would emit two image files (one per
method). -/
theorem print_image_not_called :
    mainPrintImageCalls = [] ∧ mainEmittedFiles = [] ∧
    ∀ name : String, printImageFiles name = [name ++ "1.png", name ++ "2.png"] ∧
      (printImageFiles name).length = 2 :=
  ⟨rfl, rfl, fun _ => ⟨rfl, rfl⟩⟩

/-- C6: the concrete 1×1 scan completes (`isSome`), leaves bucket 0 with a
zero sample count, yet the bucket-averaging loop of lines 284-294 covers
all 40 buckets and its division at bucket 0 is a division by a zero count
(`none`, i.e. no finite value): the code performs the division for an
empty bucket instead of detecting `count == 0` and skipping or reporting
it. -/
theorem empty_bucket_division :
    (scan cEx).isSome = true ∧
    exFinal.histCount1 0 = 0 ∧
    (histAverages exFinal.histAccTime1 exFinal.histCount1)[0]? = some none ∧
    (histAverages exFinal.histAccTime1 exFinal.histCount1).length = 40 := by
  with_unfolding_all decide

/-- C7: for every pixel `(i, j)` of an `imageWidth × imageWidth` grid with
`imageWidth ≥ 1`, the sample coordinates equal `(i + 0.5)/imageWidth` and
`(j + 0.5)/imageWidth` and lie strictly inside `(0, 1)`. -/
theorem sample_coords_in_open_interval (w i j : ℕ) (hw : 1 ≤ w) (hi : i < w) (hj : j < w) :
    sampleT w i = ((i : ℚ) + 1 / 2) / (w : ℚ) ∧
    sampleT w j = ((j : ℚ) + 1 / 2) / (w : ℚ) ∧
    0 < sampleT w i ∧ sampleT w i < 1 ∧ 0 < sampleT w j ∧ sampleT w j < 1 :=
  ⟨sampleT_eq w i, sampleT_eq w j, sampleT_pos w i hw, sampleT_lt_one w i hi,
    sampleT_pos w j hw, sampleT_lt_one w j hj⟩

/-- Witness for `sample_coords_in_open_interval` on a 1×1 grid. -/
theorem sample_coords_witness :
    (1 : ℕ) ≤ 1 ∧ (0 : ℕ) < 1 ∧ 0 < sampleT 1 0 ∧ sampleT 1 0 < 1 :=
  ⟨by decide, by decide,
    (sample_coords_in_open_interval 1 0 0 (by decide) (by decide) (by decide)).2.2.1,
    (sample_coords_in_open_interval 1 0 0 (by decide) (by decide) (by decide)).2.2.2.1⟩

/-- C8: the bilinear position mapping reduces exactly to the four quad
corners at the four corners of the unit square, for every choice of the
corner points. -/
theorem bilinear_corner_reduction (a b c d : Vec3) :
    bilinearPos a b c d 0 0 = a ∧ bilinearPos a b c d 1 0 = b ∧
    bilinearPos a b c d 0 1 = c ∧ bilinearPos a b c d 1 1 = d := by
  refine ⟨?_, ?_, ?_, ?_⟩ <;>
    · simp only [bilinearPos, interpolate]
      norm_num

/-- C9 (counterexample): with `minColorInterval = 0`, `maxColorInterval = 1`,
the value `1` (exactly `maxColorInterval`) packs to a pixel whose green
byte is 2, while the last palette color `(1, 0, 0)` has green byte 0: the
unpacked channel misses the last palette color by 2 quantization steps,
more than the claimed 8-bit quantization error of 1. -/
theorem encoder_max_quantization_cex :
    byteAt (encodePixel 1 0 1) 8 = 2 ∧
    truncNat (255 * (colorsPalette 4).y) = 0 ∧
    ¬ (byteAt (encodePixel 1 0 1) 8 ≤ truncNat (255 * (colorsPalette 4).y) + 1) := by
  with_unfolding_all decide

/-- C9 (amended): a value exactly at `minColorInterval` maps exactly to the
first palette color, and its packed bytes (alpha 255 high, then blue,
green, red low) recover that color exactly; a value exactly at
`maxColorInterval` maps to `(1, 0.01, 0)`, within `0.01` per channel of the
last palette color `(1, 0, 0)` — the `0.01` index clamp, i.e. up to 3
(not 1) 8-bit steps after quantization: the packed bytes are
`(R, G, B) = (255, 2, 0)`. -/
theorem encoder_endpoint_colors (minC maxC : ℚ) (h : minC < maxC) :
    (encodeColor minC minC maxC = colorsPalette 0 ∧
      byteAt (encodePixel minC minC maxC) 0 = truncNat (255 * (colorsPalette 0).x) ∧
      byteAt (encodePixel minC minC maxC) 8 = truncNat (255 * (colorsPalette 0).y) ∧
      byteAt (encodePixel minC minC maxC) 16 = truncNat (255 * (colorsPalette 0).z) ∧
      byteAt (encodePixel minC minC maxC) 24 = 255) ∧
    (encodeColor maxC minC maxC = ⟨1, 1 / 100, 0⟩ ∧
      |(encodeColor maxC minC maxC).x - (colorsPalette 4).x| ≤ 1 / 100 ∧
      |(encodeColor maxC minC maxC).y - (colorsPalette 4).y| ≤ 1 / 100 ∧
      |(encodeColor maxC minC maxC).z - (colorsPalette 4).z| ≤ 1 / 100 ∧
      byteAt (encodePixel maxC minC maxC) 0 = 255 ∧
      byteAt (encodePixel maxC minC maxC) 8 = 2 ∧
      byteAt (encodePixel maxC minC maxC) 16 = 0 ∧
      byteAt (encodePixel maxC minC maxC) 24 = 255) := by
  have e1 := encodeColor_min minC maxC
  have e2 := encodeColor_max minC maxC h
  have p1 : encodePixel minC minC maxC = packColor (colorsPalette 0) := by
    unfold encodePixel; rw [e1]
  have p2 : encodePixel maxC minC maxC = packColor ⟨1, 1 / 100, 0⟩ := by
    unfold encodePixel; rw [e2]
  refine ⟨⟨e1, ?_, ?_, ?_, ?_⟩, e2, ?_, ?_, ?_, ?_, ?_, ?_, ?_⟩ <;>
    first
      | (rw [p1]; with_unfolding_all decide)
      | (rw [p2]; with_unfolding_all decide)
      | (rw [e2]; with_unfolding_all decide)

/-- Witness for `encoder_endpoint_colors` at the interval `(0, 1)`. -/
theorem encoder_endpoint_colors_witness :
    (0 : ℚ) < 1 ∧ encodeColor 0 0 1 = colorsPalette 0 :=
  ⟨by with_unfolding_all decide,
    ((encoder_endpoint_colors 0 1 (by with_unfolding_all decide)).1).1⟩

/-- C2: the early-abort check runs once per row, after the inner column
loop.  If rows before `r` finish with `maxError ≤ tol` and row `r` finishes
in state `stR` with `maxError > tol`, then the scan stops in exactly that
state; every pixel of every row after `r` in both output buffers retains
its zero initial value, while every pixel of row `r` itself was written
(mid-row divergence does not stop the row's remaining writes). -/
theorem scan_early_abort (c : ScanCtx) (r : ℕ) (stR : ScanState)
    (hr : r < c.w)
    (hpre : ∀ r2 s, r2 < r → rowsTo c (r2 + 1) = some s → s.maxError ≤ tol)
    (hrow : rowsTo c (r + 1) = some stR)
    (habort : tol < stR.maxError) :
    scan c = some stR ∧
    (∀ j2 i, r < j2 → j2 < c.w → i < c.w →
        stR.outImage1 (j2 * c.w + i) = 0 ∧ stR.outImage2 (j2 * c.w + i) = 0) ∧
    (∀ i, i < c.w →
        stR.outImage1 (r * c.w + i) = c.t1 i r ∧ stR.outImage2 (r * c.w + i) = c.t2 i r) := by
  have hsucc := hrow
  rw [rowsTo_succ] at hsucc
  obtain ⟨stPre, hPre, hRow⟩ := Option.bind_eq_some.mp hsucc
  refine ⟨?_, ?_, ?_⟩
  · obtain ⟨m, hm⟩ : ∃ m, c.w = (r + 1) + m := ⟨c.w - (r + 1), by omega⟩
    have hsplit : List.range c.w =
        List.range r ++ (r :: (List.range m).map fun x => (r + 1) + x) := by
      rw [hm, List.range_add, List.range_succ, List.append_assoc]
      rfl
    unfold scan
    rw [hsplit, scanRows_bridge c r _ stPre hpre hPre]
    simp only [scanRows, hRow]
    rw [if_pos habort]
  · intro j2 i hj2 hj2w hi
    have hcond : ∀ j ∈ List.range (r + 1), ∀ i2 ∈ List.range c.w,
        j2 * c.w + i ≠ j * c.w + i2 := by
      intro j hj i2 hi2 heq
      rw [List.mem_range] at hj hi2
      have e1 : j * c.w + i2 < (j + 1) * c.w := by
        rw [Nat.succ_mul]; omega
      have e2 : (j + 1) * c.w ≤ j2 * c.w := Nat.mul_le_mul_right c.w (by omega)
      linarith
    have hNA : rowsNoAbort c (List.range (r + 1)) initState = some stR := hrow
    have hzero := rowsNoAbort_out_ne c (List.range (r + 1)) initState stR hNA
      (j2 * c.w + i) hcond
    exact ⟨hzero.1.trans rfl, hzero.2.trans rfl⟩
  · intro i hi
    exact runRow_writes c r (List.range c.w) (List.nodup_range c.w) stPre stR hRow i
      (List.mem_range.mpr hi)

/-- Witness for `scan_early_abort`: the concrete 1×1 scan whose engines
disagree by 1 aborts after row 0 and the scan result is exactly the
post-row-0 state. -/
theorem scan_early_abort_witness :
    0 < cEx.w ∧ rowsTo cEx 1 = some c2state ∧ tol < c2state.maxError ∧
    scan cEx = some c2state :=
  ⟨by decide, by with_unfolding_all rfl, by with_unfolding_all decide,
    (scan_early_abort cEx 0 c2state (by decide)
      (fun r2 s h2 _ => absurd h2 (Nat.not_lt_zero r2))
      (by with_unfolding_all rfl) (by with_unfolding_all decide)).1⟩

/-- C3: after each pixel, `maxError` equals `max` of its previous value
and `|dist1 - dist2|` for that pixel; it is monotonically non-decreasing
across every row and across the whole row loop; a finished row's value is
the running fold of `max` over the row's per-pixel disagreements; and the
scan starts from `maxError = 0`. -/
theorem maxError_monotone (c : ScanCtx) :
    (∀ (st : ScanState) (i j : ℕ) (st2 : ScanState), pixelStep c st i j = some st2 →
        st2.maxError = max st.maxError |c.d1 (posAt c i j) - c.d2 (posAt c i j)|) ∧
    (∀ (j : ℕ) (cols : List ℕ) (st st2 : ScanState), runRow c j cols st = some st2 →
        st2.maxError =
          cols.foldl (fun m i => max m |c.d1 (posAt c i j) - c.d2 (posAt c i j)|) st.maxError ∧
        st.maxError ≤ st2.maxError) ∧
    (∀ (rows : List ℕ) (st st2 : ScanState), scanRows c rows st = some st2 →
        st.maxError ≤ st2.maxError) ∧
    initState.maxError = 0 := by
  refine ⟨?_, ?_, scanRows_maxError_mono c, rfl⟩
  · intro st i j st2 h
    obtain ⟨idx, _, _, rfl⟩ := pixelStep_eq_some h
    simp [pixelWrite]
  · intro j cols st st2 h
    exact ⟨runRow_maxError c j cols st st2 h, runRow_maxError_mono c j cols st st2 h⟩

/-- Witness for `maxError_monotone`: on the concrete scan's first pixel,
`maxError` becomes `max 0 |0 - 1|`. -/
theorem maxError_monotone_witness :
    pixelStep cEx initState 0 0 = some c3state ∧
    c3state.maxError = max initState.maxError |cEx.d1 (posAt cEx 0 0) - cEx.d2 (posAt cEx 0 0)| :=
  ⟨by with_unfolding_all rfl,
    (maxError_monotone cEx).1 initState 0 0 c3state (by with_unfolding_all rfl)⟩

/-- C10: each pixel increments the same bucket in both histograms, so
componentwise equality of the two count arrays is preserved by every pixel
and by the whole row loop, and each pixel adds exactly one sample to the
40-bucket total; consequently any completed scan ends with
`histCount1 = histCount2` componentwise and a total count equal to the
number of processed pixels (`k` full rows of `imageWidth` pixels each). -/
theorem hist_counts_sync (c : ScanCtx) :
    (∀ (st : ScanState) (i j : ℕ) (st2 : ScanState), pixelStep c st i j = some st2 →
        countSum1 st2 = countSum1 st + 1 ∧ countSum2 st2 = countSum2 st + 1 ∧
        ∀ b, st.histCount1 b = st.histCount2 b → st2.histCount1 b = st2.histCount2 b) ∧
    (∀ (rows : List ℕ) (st st2 : ScanState), scanRows c rows st = some st2 →
        ∀ b, st.histCount1 b = st.histCount2 b → st2.histCount1 b = st2.histCount2 b) ∧
    (∀ st2, scan c = some st2 →
        (∀ b, st2.histCount1 b = st2.histCount2 b) ∧
        ∃ k, k ≤ c.w ∧ countSum1 st2 = k * c.w ∧ countSum2 st2 = k * c.w) := by
  refine ⟨?_, ?_, ?_⟩
  · intro st i j st2 h
    obtain ⟨idx, _, hle, rfl⟩ := pixelStep_eq_some h
    refine ⟨countSum1_pixelWrite c st i j idx hle, countSum2_pixelWrite c st i j idx hle, ?_⟩
    intro b heq
    simp only [pixelWrite]
    split <;> simp [heq]
  · intro rows st st2 h
    exact (scanRows_counts c rows st st2 h).2
  · intro st2 h
    obtain ⟨⟨k, hk, h1, h2⟩, hpres⟩ := scanRows_counts c (List.range c.w) initState st2 h
    have hz1 : countSum1 initState = 0 := by simp [countSum1, initState]
    have hz2 : countSum2 initState = 0 := by simp [countSum2, initState]
    rw [List.length_range] at hk
    refine ⟨fun b => hpres b rfl, k, hk, ?_, ?_⟩
    · rw [h1, hz1]; omega
    · rw [h2, hz2]; omega

/-- Witness for `hist_counts_sync`: the concrete 1×1 scan ends with equal
histogram counts and one processed pixel. -/
theorem hist_counts_sync_witness :
    scan cEx = some exFinal ∧
    ((∀ b, exFinal.histCount1 b = exFinal.histCount2 b) ∧
      ∃ k, k ≤ cEx.w ∧ countSum1 exFinal = k * cEx.w ∧ countSum2 exFinal = k * cEx.w) :=
  ⟨by with_unfolding_all rfl,
    (hist_counts_sync cEx).2.2 exFinal (by with_unfolding_all rfl)⟩

end ImageQueryTime
